import Mathlib

/-!
Verification of the orders service of `good-rust-server-arch`.

Shallow embedding of:
  - `crates/orders-types/src/domain/order.rs` (`OrderStatus`, `OrderItem`,
    `Order`, `Order::new`, `Order::update_status`),
  - `crates/orders-types/src/ports/order_repository.rs` (`RepoError`),
  - `crates/orders-repo/src/memory.rs` (`InMemoryRepo` over a `DashMap`),
  - `crates/orders-hex/src/application/order_service.rs` (`OrderService`)
    with `crates/orders-hex/src/errors.rs` (`AppError`).

Modelling choices:
  - `Uuid` identifiers are modelled as `Nat`; `Uuid::new_v4()` draws a fresh
    identifier from a counter threaded through the system state.
  - `DateTime<Utc>` timestamps are modelled as `Nat`; each call of
    `Utc::now()` advances a logical clock and yields an instant strictly
    later than every previously observed one (matching the strict
    monotonicity the repository's own tests assert).
  - `i64` money amounts are modelled as `Int` reduced to the two's-complement
    range by `wrap64` wherever the source computes in `i64` (release-mode
    wrapping semantics; debug builds would panic at the same inputs, so where
    the wrapped total differs from the exact sum the program in either mode
    fails to deliver the exact sum); `u32` quantities are `Nat`.
  - Rust's `str::trim` / `char::is_whitespace` use the Unicode `White_Space`
    property, embedded as the explicit 25-character set `isRustWhitespace`.
  - The `DashMap` is modelled as an association list with insert-or-replace,
    lookup and erase; the async trait methods become pure state-passing
    functions.
-/

deriving instance DecidableEq for Except

namespace GoodRustServer

/-- Embeds `OrderStatus` from `domain/order.rs`. -/
inductive OrderStatus where
  | Pending
  | Confirmed
  | Shipped
  | Cancelled
  | Completed
deriving DecidableEq, Repr

/-- Embeds `OrderItem` from `domain/order.rs`: `qty : u32` as `Nat`,
`unit_price_cents : i64` as `Int`. -/
structure OrderItem where
  name : String
  qty : Nat
  unit_price_cents : Int
deriving DecidableEq, Repr

/-- Embeds `Order` from `domain/order.rs`; `id : Uuid` as `Nat`, timestamps as
logical-clock instants. -/
structure Order where
  id : Nat
  customer_name : String
  email : String
  items : List OrderItem
  total_cents : Int
  status : OrderStatus
  created_at : Nat
  updated_at : Nat
deriving DecidableEq, Repr

/-- Embeds Rust's `char::is_whitespace`: the Unicode `White_Space` property,
written out as the 25 code points it comprises (U+0009..U+000D, U+0020,
U+0085, U+00A0, U+1680, U+2000..U+200A, U+2028, U+2029, U+202F, U+205F,
U+3000). -/
def isRustWhitespace (c : Char) : Bool :=
  c.toNat == 0x09 || c.toNat == 0x0A || c.toNat == 0x0B || c.toNat == 0x0C ||
  c.toNat == 0x0D || c.toNat == 0x20 || c.toNat == 0x85 || c.toNat == 0xA0 ||
  c.toNat == 0x1680 || c.toNat == 0x2000 || c.toNat == 0x2001 ||
  c.toNat == 0x2002 || c.toNat == 0x2003 || c.toNat == 0x2004 ||
  c.toNat == 0x2005 || c.toNat == 0x2006 || c.toNat == 0x2007 ||
  c.toNat == 0x2008 || c.toNat == 0x2009 || c.toNat == 0x200A ||
  c.toNat == 0x2028 || c.toNat == 0x2029 || c.toNat == 0x202F ||
  c.toNat == 0x205F || c.toNat == 0x3000

/-- Embeds `customer_name.trim().is_empty()` of the source: `str::trim`
removes leading and trailing Unicode `White_Space`, so the trimmed string is
empty exactly when every character has that property (string operations are
phrased over the character list so that they compute by kernel
reduction). -/
def strTrimIsEmpty (s : String) : Bool :=
  s.data.all isRustWhitespace

/-- Embeds `email.contains('@')` of the source, over the character list. -/
def strContainsChar (s : String) (c : Char) : Bool :=
  s.data.any (· == c)

/-- Reduction of an unbounded integer to the `i64` two's-complement range:
the wrapping the source's `i64` arithmetic performs on overflow in release
builds. -/
def wrap64 (x : Int) : Int :=
  (x + 2 ^ 63) % 2 ^ 64 - 2 ^ 63

/-- The total `Order::new` computes:
`items.iter().map(|it| (it.qty as i64) * it.unit_price_cents).sum()`.
Each product is an `i64` multiplication and the running sum an `i64`
addition, so both wrap on overflow. -/
def itemsTotal (items : List OrderItem) : Int :=
  ((items.map fun it => (it.qty : Int) * it.unit_price_cents).map wrap64).foldl
    (fun acc x => wrap64 (acc + x)) 0

/-- Embeds `Order::new` from `domain/order.rs`.  The fresh uuid and the
`Utc::now()` instant are made explicit arguments `id` and `now` (in the
source they are drawn from the environment after validation passes). -/
def Order.new (id now : Nat) (customer_name email : String)
    (items : List OrderItem) : Except String Order :=
  if strTrimIsEmpty customer_name then .error "customer_name empty"
  else if !(strContainsChar email '@') then .error "invalid email"
  else if items.isEmpty then .error "items empty"
  else if items.any (fun it => it.qty == 0) then .error "item qty must be > 0"
  else .ok
    { id := id
      customer_name := customer_name
      email := email
      items := items
      total_cents := itemsTotal items
      status := .Pending
      created_at := now
      updated_at := now }

/-- Embeds `Order::update_status` from `domain/order.rs`: sets the status and
stamps `updated_at = Utc::now()` (`now` made explicit). -/
def Order.update_status (o : Order) (status : OrderStatus) (now : Nat) : Order :=
  { o with status := status, updated_at := now }

/-- Embeds `RepoError` from `ports/order_repository.rs`. -/
inductive RepoError where
  | DbError (msg : String)
deriving DecidableEq, Repr

/-- The `thiserror` display string of a `RepoError`. -/
def RepoError.message : RepoError → String
  | .DbError m => "db error: " ++ m

/-- Embeds `AppError` from `orders-hex/src/errors.rs` (the `anyhow::Error` inside
`Internal` is modelled by its message string). -/
inductive AppError where
  | BadRequest (msg : String)
  | NotFound (msg : String)
  | Internal (msg : String)
deriving DecidableEq, Repr

/-- The `DashMap<Uuid, Order>` of `InMemoryRepo`, as an association list. -/
abbrev Store := List (Nat × Order)

namespace Store

/-- Map lookup (`DashMap::get`). -/
def lookup : Store → Nat → Option Order
  | [], _ => none
  | (k, v) :: rest, id => if k = id then some v else lookup rest id

/-- Map insert-or-replace (`DashMap::insert`). -/
def insert : Store → Nat → Order → Store
  | [], k, v => [(k, v)]
  | (k0, v0) :: rest, k, v =>
      if k0 = k then (k, v) :: rest else (k0, v0) :: insert rest k v

/-- Map removal (`DashMap::remove`). -/
def erase (s : Store) (id : Nat) : Store :=
  s.filter fun kv => kv.1 ≠ id

end Store

/-- The whole system state: the in-memory store plus the ambient
environment (`Uuid::new_v4()` supply and the `Utc::now()` clock). -/
structure Sys where
  store : Store
  nextId : Nat
  clock : Nat
deriving DecidableEq, Repr

/-- The state of a freshly started server with an empty `InMemoryRepo`. -/
def Sys.init : Sys := { store := [], nextId := 0, clock := 0 }

namespace InMemoryRepo

/-- Embeds `InMemoryRepo::create`: inserts under `order.id` and returns the order. -/
def create (s : Sys) (o : Order) : Except RepoError Order × Sys :=
  (.ok o, { s with store := s.store.insert o.id o })

/-- Embeds `InMemoryRepo::get`: clones the entry out of the map, if present. -/
def get (s : Sys) (id : Nat) : Except RepoError (Option Order) × Sys :=
  (.ok (s.store.lookup id), s)

/-- Embeds `InMemoryRepo::list`: all stored orders. -/
def list (s : Sys) : Except RepoError (List Order) × Sys :=
  (.ok (s.store.map Prod.snd), s)

/-- Embeds `InMemoryRepo::update_status`: if present, mutates the stored order via
`Order::update_status` (which reads `Utc::now()`, here a clock tick) and
returns the updated clone; otherwise returns `none` and leaves the state
alone. -/
def update_status (s : Sys) (id : Nat) (status : OrderStatus) :
    Except RepoError (Option Order) × Sys :=
  match s.store.lookup id with
  | some v =>
      let v2 := v.update_status status (s.clock + 1)
      (.ok (some v2), { s with store := s.store.insert id v2, clock := s.clock + 1 })
  | none => (.ok none, s)

/-- Embeds `InMemoryRepo::delete`: removes the entry, reporting whether one was
present. -/
def delete (s : Sys) (id : Nat) : Except RepoError Bool × Sys :=
  ((.ok (s.store.lookup id).isSome : Except RepoError Bool),
    { s with store := s.store.erase id })

end InMemoryRepo

namespace OrderService

/-- Embeds `OrderService::create_order` specialised to the in-memory adapter:
validates and builds via `Order::new` (mapping failures to `BadRequest`
without touching the repository), persists via `InMemoryRepo::create`
(mapping repository failures to `Internal`), and returns the order as
constructed. -/
def create_order (s : Sys) (customer_name email : String)
    (items : List OrderItem) : Except AppError Order × Sys :=
  match Order.new s.nextId (s.clock + 1) customer_name email items with
  | .error e => (.error (.BadRequest e), s)
  | .ok o =>
      let s1 : Sys := { s with nextId := s.nextId + 1, clock := s.clock + 1 }
      match InMemoryRepo.create s1 o with
      | (.ok _, s2) => (.ok o, s2)
      | (.error re, s2) => (.error (.Internal re.message), s2)

/-- Embeds `OrderService::get_order`: `NotFound` when the repository reports
absence. -/
def get_order (s : Sys) (id : Nat) : Except AppError Order × Sys :=
  match InMemoryRepo.get s id with
  | (.ok (some o), s1) => (.ok o, s1)
  | (.ok none, s1) => (.error (.NotFound ("order " ++ toString id)), s1)
  | (.error re, s1) => (.error (.Internal re.message), s1)

/-- Embeds `OrderService::list_orders`. -/
def list_orders (s : Sys) : Except AppError (List Order) × Sys :=
  match InMemoryRepo.list s with
  | (.ok l, s1) => (.ok l, s1)
  | (.error re, s1) => (.error (.Internal re.message), s1)

/-- Embeds `OrderService::update_status`: `NotFound` when the repository reports
absence. -/
def update_status (s : Sys) (id : Nat) (status : OrderStatus) :
    Except AppError Order × Sys :=
  match InMemoryRepo.update_status s id status with
  | (.ok (some o), s1) => (.ok o, s1)
  | (.ok none, s1) => (.error (.NotFound ("order " ++ toString id)), s1)
  | (.error re, s1) => (.error (.Internal re.message), s1)

/-- Embeds `OrderService::delete_order`: `NotFound` when the repository reports
that nothing was removed. -/
def delete_order (s : Sys) (id : Nat) : Except AppError Unit × Sys :=
  match InMemoryRepo.delete s id with
  | (.ok true, s1) => (.ok (), s1)
  | (.ok false, s1) => (.error (.NotFound ("order " ++ toString id)), s1)
  | (.error re, s1) => (.error (.Internal re.message), s1)

end OrderService

/-- Embeds `OrderService::create_order` over an abstract repository `create`
(the generic `R: OrderRepository` of the source): only the returned
`Result`-shape of the repository call matters for the service's answer. -/
def create_order_with (repoCreate : Order → Except RepoError Order)
    (id now : Nat) (customer_name email : String)
    (items : List OrderItem) : Except AppError Order :=
  match Order.new id now customer_name email items with
  | .error e => .error (.BadRequest e)
  | .ok o =>
      match repoCreate o with
      | .ok _ => .ok o
      | .error re => .error (.Internal re.message)

/-- One inbound service call (the five operations of the application
layer). -/
inductive Op where
  | create (customer_name email : String) (items : List OrderItem)
  | get (id : Nat)
  | listAll
  | update (id : Nat) (status : OrderStatus)
  | del (id : Nat)

/-- The state reached after one service call (its result discarded). -/
def Sys.step (s : Sys) : Op → Sys
  | .create n e its => (OrderService.create_order s n e its).2
  | .get id => (OrderService.get_order s id).2
  | .listAll => (OrderService.list_orders s).2
  | .update id st => (OrderService.update_status s id st).2
  | .del id => (OrderService.delete_order s id).2

/-- The state reached after a sequence of service calls. -/
def Sys.run (s : Sys) (ops : List Op) : Sys :=
  ops.foldl Sys.step s

/-- Store/clock invariant: every stored order sits under its own id, and
its timestamps satisfy `created_at ≤ updated_at ≤ clock`. -/
def Sys.Inv (s : Sys) : Prop :=
  ∀ kv ∈ s.store, kv.2.id = kv.1 ∧
    kv.2.created_at ≤ kv.2.updated_at ∧ kv.2.updated_at ≤ s.clock

theorem Store.lookup_insert_self (st : Store) (k : Nat) (v : Order) :
    (st.insert k v).lookup k = some v := by
  induction st with
  | nil => simp [Store.insert, Store.lookup]
  | cons kv rest ih =>
      obtain ⟨k0, v0⟩ := kv
      by_cases h : k0 = k
      · simp [Store.insert, Store.lookup, h]
      · simp [Store.insert, Store.lookup, h, ih]

theorem Store.lookup_insert_ne (st : Store) (k k' : Nat) (v : Order)
    (h : k ≠ k') : (st.insert k v).lookup k' = st.lookup k' := by
  induction st with
  | nil => simp [Store.insert, Store.lookup, h]
  | cons kv rest ih =>
      obtain ⟨k0, v0⟩ := kv
      by_cases hk : k0 = k
      · subst hk
        simp [Store.insert, Store.lookup, h]
      · by_cases hk' : k0 = k'
        · subst hk'
          simp [Store.insert, Store.lookup, hk, Ne.symm h]
        · simp [Store.insert, Store.lookup, hk, hk', ih]

theorem Store.mem_insert {st : Store} {k : Nat} {v : Order} {kv : Nat × Order} :
    kv ∈ st.insert k v → kv = (k, v) ∨ kv ∈ st := by
  induction st with
  | nil =>
      intro h
      simpa [Store.insert] using h
  | cons kv0 rest ih =>
      obtain ⟨k0, v0⟩ := kv0
      intro h
      by_cases hk : k0 = k
      · simp only [Store.insert, hk, if_true, eq_self_iff_true, List.mem_cons] at h
        rcases h with h | h
        · exact .inl h
        · exact .inr (List.mem_cons_of_mem _ h)
      · simp only [Store.insert, if_neg hk, List.mem_cons] at h
        rcases h with h | h
        · exact .inr (h ▸ List.mem_cons_self _ _)
        · rcases ih h with h' | h'
          · exact .inl h'
          · exact .inr (List.mem_cons_of_mem _ h')

theorem Store.lookup_mem {st : Store} {id : Nat} {o : Order} :
    st.lookup id = some o → (id, o) ∈ st := by
  induction st with
  | nil =>
      intro h
      simp [Store.lookup] at h
  | cons kv rest ih =>
      obtain ⟨k0, v0⟩ := kv
      intro h
      by_cases hk : k0 = id
      · simp only [Store.lookup, if_pos hk] at h
        subst hk
        obtain rfl : v0 = o := Option.some.inj h
        exact List.mem_cons_self _ _
      · simp only [Store.lookup, if_neg hk] at h
        exact List.mem_cons_of_mem _ (ih h)

theorem Store.mem_erase {st : Store} {id : Nat} {kv : Nat × Order}
    (h : kv ∈ st.erase id) : kv ∈ st ∧ kv.1 ≠ id := by
  have := List.mem_filter.1 h
  exact ⟨this.1, by simpa using this.2⟩

theorem Store.lookup_erase_self (st : Store) (id : Nat) :
    (st.erase id).lookup id = none := by
  induction st with
  | nil => rfl
  | cons kv rest ih =>
      obtain ⟨k0, v0⟩ := kv
      by_cases hk : k0 = id
      · simpa [Store.erase, hk, List.filter] using ih
      · simpa [Store.erase, List.filter, hk, Store.lookup] using ih

theorem Order.new_ok {id now : Nat} {n e : String} {its : List OrderItem}
    {o : Order} (h : Order.new id now n e its = .ok o) :
    o = { id := id, customer_name := n, email := e, items := its,
          total_cents := itemsTotal its, status := .Pending,
          created_at := now, updated_at := now } := by
  unfold Order.new at h
  split at h
  · exact absurd h (by simp)
  · split at h
    · exact absurd h (by simp)
    · split at h
      · exact absurd h (by simp)
      · split at h
        · exact absurd h (by simp)
        · exact (Except.ok.inj h).symm

theorem Sys.init_inv : Sys.init.Inv := by
  intro kv hkv
  simp [Sys.init] at hkv

theorem Sys.inv_step {s : Sys} (hInv : s.Inv) (op : Op) : (s.step op).Inv := by
  cases op with
  | create n e its =>
      rcases hnew : Order.new s.nextId (s.clock + 1) n e its with msg | o
      · simpa [Sys.step, OrderService.create_order, hnew] using hInv
      · simp only [Sys.step, OrderService.create_order, hnew, InMemoryRepo.create]
        intro kv hkv
        rcases Store.mem_insert hkv with h | h
        · subst h
          have ho := Order.new_ok hnew
          subst ho
          exact ⟨rfl, le_refl _, le_refl _⟩
        · obtain ⟨h1, h2, h3⟩ := hInv kv h
          exact ⟨h1, h2, h3.trans (Nat.le_succ _)⟩
  | get id =>
      rcases hl : s.store.lookup id with _ | v
      all_goals simpa [Sys.step, OrderService.get_order, InMemoryRepo.get, hl] using hInv
  | listAll =>
      simpa [Sys.step, OrderService.list_orders, InMemoryRepo.list] using hInv
  | update id st =>
      rcases hl : s.store.lookup id with _ | v
      · simpa [Sys.step, OrderService.update_status, InMemoryRepo.update_status, hl] using hInv
      · simp only [Sys.step, OrderService.update_status, InMemoryRepo.update_status, hl]
        intro kv hkv
        rcases Store.mem_insert hkv with h | h
        · subst h
          obtain ⟨h1, h2, h3⟩ := hInv _ (Store.lookup_mem hl)
          refine ⟨h1, ?_, le_refl _⟩
          exact le_trans (le_trans h2 h3) (Nat.le_succ _)
        · obtain ⟨h1, h2, h3⟩ := hInv kv h
          exact ⟨h1, h2, h3.trans (Nat.le_succ _)⟩
  | del id =>
      simp only [Sys.step, OrderService.delete_order, InMemoryRepo.delete]
      rcases hl : (s.store.lookup id).isSome with _ | _
      all_goals
        simp only [hl]
        intro kv hkv
        exact hInv kv (Store.mem_erase hkv).1

theorem Sys.inv_run {s : Sys} (hInv : s.Inv) (ops : List Op) : (s.run ops).Inv := by
  induction ops generalizing s with
  | nil => simpa [Sys.run] using hInv
  | cons op rest ih =>
      simp only [Sys.run, List.foldl_cons]
      exact ih (Sys.inv_step hInv op)

theorem wrap64_eq_self {x : Int} (h : |x| < 2 ^ 63) : wrap64 x = x := by
  obtain ⟨h1, h2⟩ := abs_lt.mp h
  unfold wrap64
  rw [Int.emod_eq_of_lt (by omega) (by omega)]
  omega

theorem wrapFold_eq_sum (l : List Int) (acc : Int)
    (h : |acc| + (l.map fun x => |x|).sum < 2 ^ 63) :
    (l.map wrap64).foldl (fun a x => wrap64 (a + x)) acc = acc + l.sum := by
  induction l generalizing acc with
  | nil => simp
  | cons x xs ih =>
      have habs_nonneg : 0 ≤ (xs.map fun y => |y|).sum := by
        apply List.sum_nonneg
        intro y hy
        obtain ⟨z, -, rfl⟩ := List.mem_map.1 hy
        exact abs_nonneg z
      have hsum : |x| + (xs.map fun y => |y|).sum + |acc| < 2 ^ 63 := by
        have := List.sum_cons (a := |x|) (l := xs.map fun y => |y|)
        simp only [List.map_cons, List.sum_cons] at h
        omega
      have hx : wrap64 x = x :=
        wrap64_eq_self (by have := abs_nonneg acc; omega)
      have htri := abs_add acc x
      have hax : wrap64 (acc + x) = acc + x :=
        wrap64_eq_self (by omega)
      have hrec := ih (acc + x) (by omega)
      simp only [List.map_cons, List.foldl_cons, List.sum_cons, hx, hax, hrec]
      ring

/-- Counterexample to C1 as stated: one item with `qty = 2` and
`unit_price_cents = 2^62` passes validation, so `Order::new` succeeds, but
the `i64` product `2 * 2^62` overflows, so `total_cents` is the wrapped
value `-2^63`, not the exact sum `2^63` (a debug build would panic instead;
in neither mode is the exact sum delivered). -/
theorem order_new_total_overflow :
    Order.new 0 1 "Alice" "a@b.com"
        [{ name := "A", qty := 2, unit_price_cents := 4611686018427387904 }]
      = .ok
        { id := 0, customer_name := "Alice", email := "a@b.com",
          items := [{ name := "A", qty := 2,
                      unit_price_cents := 4611686018427387904 }],
          total_cents := -9223372036854775808, status := .Pending,
          created_at := 1, updated_at := 1 }
    ∧ (-9223372036854775808 : Int)
      ≠ (([{ name := "A", qty := 2,
             unit_price_cents := 4611686018427387904 }] : List OrderItem).map
          fun it => (it.qty : Int) * it.unit_price_cents).sum := by
  constructor
  · decide
  · decide

/-- C1 (amended): for every input with non-empty trimmed `customer_name`,
an email containing `'@'`, a non-empty item list, all quantities positive,
and the per-item products small enough that the `i64` computation cannot
overflow (the sum of their absolute values stays below `2^63`),
`Order::new` succeeds and the returned order has `total_cents` equal to the
exact sum of `qty * unit_price_cents` over the items, status `Pending`, and
`created_at = updated_at`. -/
theorem order_new_valid_fields (id now : Nat) (n e : String)
    (its : List OrderItem)
    (hname : strTrimIsEmpty n = false)
    (hemail : strContainsChar e '@' = true)
    (hitems : its ≠ [])
    (hqty : ∀ it ∈ its, 0 < it.qty)
    (hbound : (its.map fun it => |(it.qty : Int) * it.unit_price_cents|).sum
        < 2 ^ 63) :
    Order.new id now n e its = .ok
      { id := id, customer_name := n, email := e, items := its,
        total_cents := (its.map fun it => (it.qty : Int) * it.unit_price_cents).sum,
        status := .Pending, created_at := now, updated_at := now } := by
  have h3 : its.isEmpty = false := by
    cases its with
    | nil => exact absurd rfl hitems
    | cons a l => rfl
  have h4 : (its.any fun it => it.qty == 0) = false := by
    rw [List.any_eq_false]
    intro it hit
    have := hqty it hit
    simp only [beq_iff_eq]
    omega
  have htot : itemsTotal its
      = (its.map fun it => (it.qty : Int) * it.unit_price_cents).sum := by
    have hb : |(0 : Int)|
        + ((its.map fun it => (it.qty : Int) * it.unit_price_cents).map
            fun x => |x|).sum < 2 ^ 63 := by
      rw [List.map_map]
      simpa [Function.comp] using hbound
    unfold itemsTotal
    rw [wrapFold_eq_sum (its.map fun it => (it.qty : Int) * it.unit_price_cents)
      0 hb]
    ring
  simp [Order.new, hname, hemail, h3, h4, htot]

/-- Witness for C1 at a concrete valid input. -/
theorem order_new_valid_fields_witness :
    Order.new 7 3 "Alice" "a@b.com"
        [{ name := "A", qty := 2, unit_price_cents := 500 },
         { name := "B", qty := 1, unit_price_cents := 250 }] = .ok
      { id := 7, customer_name := "Alice", email := "a@b.com",
        items := [{ name := "A", qty := 2, unit_price_cents := 500 },
                  { name := "B", qty := 1, unit_price_cents := 250 }],
        total_cents := 1250, status := .Pending,
        created_at := 3, updated_at := 3 } :=
  (order_new_valid_fields 7 3 "Alice" "a@b.com"
      [{ name := "A", qty := 2, unit_price_cents := 500 },
       { name := "B", qty := 1, unit_price_cents := 250 }]
      (by decide) (by decide) (by decide) (by decide) (by decide)).trans
    (by decide)

theorem order_new_error_iff (id now : Nat) (n e : String) (its : List OrderItem) :
    (∃ m, Order.new id now n e its = .error m) ↔
      (strTrimIsEmpty n = true ∨ strContainsChar e '@' = false ∨ its = [] ∨
        ∃ it ∈ its, it.qty = 0) := by
  unfold Order.new
  by_cases h1 : strTrimIsEmpty n = true
  · simp [h1]
  · by_cases h2 : strContainsChar e '@' = true
    · by_cases h3 : its.isEmpty = true
      · simp [h1, h2, h3, List.isEmpty_iff.mp h3]
      · by_cases h4 : (its.any fun it => it.qty == 0) = true
        · have hex : ∃ it ∈ its, it.qty = 0 := by
            simpa using List.any_eq_true.mp h4
          simp [h1, h2, h3, h4, hex]
        · have hne : ¬ its = [] := by
            simp only [Bool.not_eq_true] at h3
            simpa [List.isEmpty_iff] using h3
          have hnoz : ¬ ∃ it ∈ its, it.qty = 0 := by
            simp only [Bool.not_eq_true] at h4
            rw [List.any_eq_false] at h4
            push_neg
            intro it hit
            have := h4 it hit
            simpa using this
          simp [h1, h2, h3, h4, hne, hnoz]
    · simp [h1, h2]

/-- C2: `Order::new` fails exactly when the trimmed name is empty, the email
lacks `'@'`, the item list is empty, or some item has zero quantity; and for
every such invalid input `OrderService::create_order` answers
`AppError::BadRequest` leaving the repository state untouched, and the
outcome does not consult the repository (it is the same for every
repository `create` implementation). -/
theorem order_new_invalid_rejected (id now : Nat) (n e : String)
    (its : List OrderItem) :
    ((∃ m, Order.new id now n e its = .error m) ↔
      (strTrimIsEmpty n = true ∨ strContainsChar e '@' = false ∨ its = [] ∨
        ∃ it ∈ its, it.qty = 0))
    ∧ ((strTrimIsEmpty n = true ∨ strContainsChar e '@' = false ∨ its = [] ∨
        ∃ it ∈ its, it.qty = 0) →
      (∀ s : Sys, ∃ m,
        OrderService.create_order s n e its = (.error (.BadRequest m), s))
      ∧ (∀ rc : Order → Except RepoError Order, ∃ m,
          create_order_with rc id now n e its = .error (.BadRequest m))) := by
  refine ⟨order_new_error_iff id now n e its, fun hcond => ⟨?_, ?_⟩⟩
  · intro s
    obtain ⟨m, hm⟩ := (order_new_error_iff s.nextId (s.clock + 1) n e its).mpr hcond
    exact ⟨m, by simp [OrderService.create_order, hm]⟩
  · intro rc
    obtain ⟨m, hm⟩ := (order_new_error_iff id now n e its).mpr hcond
    exact ⟨m, by simp [create_order_with, hm]⟩

/-- Witness for C2: the empty name (with bad email and no items) is rejected
with `BadRequest` and the state is unchanged. -/
theorem order_new_invalid_rejected_witness :
    ∃ m, OrderService.create_order Sys.init "" "invalid" []
      = (.error (.BadRequest m), Sys.init) :=
  ((order_new_invalid_rejected 0 0 "" "invalid" []).2 (by decide)).1 Sys.init

/-- C3: an order created through the service against the in-memory
repository and immediately fetched by its id comes back identical in every
field. -/
theorem create_then_get_roundtrip (s : Sys) (n e : String)
    (its : List OrderItem) (o : Order) (s1 : Sys)
    (h : OrderService.create_order s n e its = (.ok o, s1)) :
    (OrderService.get_order s1 o.id).1 = .ok o := by
  unfold OrderService.create_order at h
  rcases hnew : Order.new s.nextId (s.clock + 1) n e its with msg | o0
  · rw [hnew] at h
    exact absurd h (by simp)
  · rw [hnew] at h
    simp only [InMemoryRepo.create] at h
    injection h with h1 h2
    injection h1 with h1
    subst h1
    subst h2
    simp [OrderService.get_order, InMemoryRepo.get, Store.lookup_insert_self]

/-- A concrete item list used by the witnesses. -/
def sampleItems : List OrderItem :=
  [{ name := "A", qty := 2, unit_price_cents := 500 }]

/-- The order `create_order Sys.init "Alice" "a@b.com" sampleItems`
constructs. -/
def sampleOrder : Order :=
  { id := 0, customer_name := "Alice", email := "a@b.com",
    items := sampleItems, total_cents := 1000, status := .Pending,
    created_at := 1, updated_at := 1 }

/-- The system state after that creation. -/
def sampleSys1 : Sys :=
  { store := [(0, sampleOrder)], nextId := 1, clock := 1 }

/-- Witness for C3 at a concrete creation from the initial state. -/
theorem create_then_get_roundtrip_witness :
    (OrderService.get_order sampleSys1 sampleOrder.id).1 = .ok sampleOrder :=
  create_then_get_roundtrip Sys.init "Alice" "a@b.com" sampleItems
    sampleOrder sampleSys1 (by decide)

/-- C4: on any state reachable by a sequence of service calls, if an order
is stored under `id` then `update_status(id, st)` succeeds, a subsequent
`get(id)` returns an order whose status is `st`, and whose `updated_at` is
strictly greater than the stored order's `updated_at` before the update. -/
theorem update_status_then_get (ops : List Op) (id : Nat) (st : OrderStatus)
    (o : Order) (h : (Sys.run Sys.init ops).store.lookup id = some o) :
    ∃ o' s',
      InMemoryRepo.update_status (Sys.run Sys.init ops) id st
        = (.ok (some o'), s')
      ∧ (InMemoryRepo.get s' id).1 = .ok (some o')
      ∧ o'.status = st
      ∧ o.updated_at < o'.updated_at := by
  have hInv := Sys.inv_run Sys.init_inv ops
  obtain ⟨-, -, hup⟩ := hInv _ (Store.lookup_mem h)
  refine ⟨o.update_status st ((Sys.run Sys.init ops).clock + 1),
    { Sys.run Sys.init ops with
        store := (Sys.run Sys.init ops).store.insert id
          (o.update_status st ((Sys.run Sys.init ops).clock + 1)),
        clock := (Sys.run Sys.init ops).clock + 1 },
    ?_, ?_, rfl, ?_⟩
  · simp [InMemoryRepo.update_status, h]
  · simp [InMemoryRepo.get, Store.lookup_insert_self]
  · exact Nat.lt_succ_of_le hup

/-- Witness for C4: update the freshly created sample order to `Shipped`. -/
theorem update_status_then_get_witness :
    ∃ o' s',
      InMemoryRepo.update_status
          (Sys.run Sys.init [Op.create "Alice" "a@b.com" sampleItems])
          0 .Shipped
        = (.ok (some o'), s')
      ∧ (InMemoryRepo.get s' 0).1 = .ok (some o')
      ∧ o'.status = .Shipped
      ∧ sampleOrder.updated_at < o'.updated_at :=
  update_status_then_get [Op.create "Alice" "a@b.com" sampleItems]
    0 .Shipped sampleOrder (by decide)

theorem Store.erase_of_lookup_none {st : Store} {id : Nat}
    (h : st.lookup id = none) : st.erase id = st := by
  induction st with
  | nil => rfl
  | cons kv rest ih =>
      obtain ⟨k0, v0⟩ := kv
      by_cases hk : k0 = id
      · simp [Store.lookup, hk] at h
      · simp only [Store.lookup, if_neg hk] at h
        simp [Store.erase, List.filter, hk] at ih ⊢
        exact ih h

/-- C5: on any reachable state, `get_order`/`update_status`/`delete_order`
on an absent identifier all answer `NotFound` and leave the state unchanged
(so repeating them yields the same outcome); and after a successful
`delete_order(id)` the identifier is gone from the store, `list_orders`
contains no order with that identifier, and `get_order(id)` answers
`NotFound`. -/
theorem absence_and_deletion (ops : List Op) (id : Nat) :
    ((Sys.run Sys.init ops).store.lookup id = none →
      OrderService.get_order (Sys.run Sys.init ops) id
          = (.error (.NotFound ("order " ++ toString id)), Sys.run Sys.init ops)
      ∧ (∀ st, OrderService.update_status (Sys.run Sys.init ops) id st
          = (.error (.NotFound ("order " ++ toString id)), Sys.run Sys.init ops))
      ∧ OrderService.delete_order (Sys.run Sys.init ops) id
          = (.error (.NotFound ("order " ++ toString id)), Sys.run Sys.init ops))
    ∧ ((OrderService.delete_order (Sys.run Sys.init ops) id).1 = .ok () →
      ((OrderService.delete_order (Sys.run Sys.init ops) id).2.store.lookup id
          = none
       ∧ (∀ l, (OrderService.list_orders
              (OrderService.delete_order (Sys.run Sys.init ops) id).2).1 = .ok l →
            ∀ o ∈ l, o.id ≠ id)
       ∧ (OrderService.get_order
              (OrderService.delete_order (Sys.run Sys.init ops) id).2 id).1
          = .error (.NotFound ("order " ++ toString id)))) := by
  have h2store : (OrderService.delete_order (Sys.run Sys.init ops) id).2.store
      = (Sys.run Sys.init ops).store.erase id := by
    cases hb : ((Sys.run Sys.init ops).store.lookup id).isSome <;>
      simp [OrderService.delete_order, InMemoryRepo.delete, hb]
  constructor
  · intro h
    refine ⟨?_, ?_, ?_⟩
    · simp [OrderService.get_order, InMemoryRepo.get, h]
    · intro st
      simp [OrderService.update_status, InMemoryRepo.update_status, h]
    · simp [OrderService.delete_order, InMemoryRepo.delete, h,
        Store.erase_of_lookup_none h]
  · intro hdel
    have hInv := Sys.inv_run Sys.init_inv ops
    refine ⟨?_, ?_, ?_⟩
    · rw [h2store]
      exact Store.lookup_erase_self _ _
    · intro l hl o ho
      have hl' : l = (OrderService.delete_order (Sys.run Sys.init ops) id).2.store.map
          Prod.snd := by
        simpa [OrderService.list_orders, InMemoryRepo.list] using hl.symm
      subst hl'
      rw [h2store] at ho
      obtain ⟨kv, hkv, rfl⟩ := List.mem_map.1 ho
      obtain ⟨hmem, hne⟩ := Store.mem_erase hkv
      obtain ⟨hid, -, -⟩ := hInv kv hmem
      rw [hid]
      exact hne
    · simp [OrderService.get_order, InMemoryRepo.get, h2store,
        Store.lookup_erase_self]

/-- Witness for C5: identifier 99 was never created, and identifier 0 is
created then deleted. -/
theorem absence_and_deletion_witness :
    (OrderService.get_order
        (Sys.run Sys.init [Op.create "Alice" "a@b.com" sampleItems]) 99
      = (.error (.NotFound ("order " ++ toString (99 : Nat))),
         Sys.run Sys.init [Op.create "Alice" "a@b.com" sampleItems]))
    ∧ (OrderService.delete_order
          (Sys.run Sys.init [Op.create "Alice" "a@b.com" sampleItems]) 0).2.store.lookup 0
        = none :=
  ⟨((absence_and_deletion [Op.create "Alice" "a@b.com" sampleItems] 99).1
      (by decide)).1,
   ((absence_and_deletion [Op.create "Alice" "a@b.com" sampleItems] 0).2
      (by decide)).1⟩

/-- C6: `update_status` checks only that the target order exists: whatever
the stored order's current status, any new status is accepted. -/
theorem update_any_transition (s : Sys) (id : Nat) (o : Order)
    (st : OrderStatus) (h : s.store.lookup id = some o) :
    ∃ o' s', OrderService.update_status s id st = (.ok o', s')
      ∧ o'.status = st := by
  refine ⟨o.update_status st (s.clock + 1),
    { s with
        store := s.store.insert id (o.update_status st (s.clock + 1)),
        clock := s.clock + 1 }, ?_, rfl⟩
  simp [OrderService.update_status, InMemoryRepo.update_status, h]

/-- A completed order, for the C6 witness. -/
def completedOrder : Order :=
  { id := 5, customer_name := "Carol", email := "c@d.com",
    items := sampleItems, total_cents := 1000, status := .Completed,
    created_at := 1, updated_at := 2 }

/-- A state holding the completed order. -/
def completedSys : Sys :=
  { store := [(5, completedOrder)], nextId := 6, clock := 2 }

/-- Witness for C6: `Completed → Pending` is accepted. -/
theorem update_any_transition_witness :
    ∃ o' s', OrderService.update_status completedSys 5 .Pending = (.ok o', s')
      ∧ o'.status = .Pending :=
  update_any_transition completedSys 5 completedOrder .Pending (by decide)

/-- C7: on every state reachable by service calls every stored order has
`updated_at ≥ created_at`, and any order returned by a successful status
update has `updated_at` strictly greater than `created_at`. -/
theorem timestamps_monotone (ops : List Op) :
    (∀ kv ∈ (Sys.run Sys.init ops).store,
      kv.2.created_at ≤ kv.2.updated_at)
    ∧ (∀ id st o s',
        OrderService.update_status (Sys.run Sys.init ops) id st = (.ok o, s') →
        o.created_at < o.updated_at) := by
  have hInv := Sys.inv_run Sys.init_inv ops
  constructor
  · intro kv hkv
    exact (hInv kv hkv).2.1
  · intro id st o s' h
    unfold OrderService.update_status InMemoryRepo.update_status at h
    rcases hl : (Sys.run Sys.init ops).store.lookup id with _ | v
    · rw [hl] at h
      exact absurd h (by simp)
    · rw [hl] at h
      simp only [] at h
      injection h with h1 h2
      injection h1 with h1
      subst h1
      obtain ⟨-, hc, hu⟩ := hInv _ (Store.lookup_mem hl)
      simpa [Order.update_status] using Nat.lt_succ_of_le (hc.trans hu)

/-- Witness for C7: the sample creation followed by a `Shipped` update. -/
theorem timestamps_monotone_witness :
    sampleOrder.created_at ≤ sampleOrder.updated_at
    ∧ ({ sampleOrder with status := .Shipped, updated_at := 2 } : Order).created_at
      < ({ sampleOrder with status := .Shipped, updated_at := 2 } : Order).updated_at :=
  ⟨(timestamps_monotone [Op.create "Alice" "a@b.com" sampleItems]).1
      (0, sampleOrder) (by decide),
   (timestamps_monotone [Op.create "Alice" "a@b.com" sampleItems]).2
      0 .Shipped { sampleOrder with status := .Shipped, updated_at := 2 }
      { store := [(0, { sampleOrder with status := .Shipped, updated_at := 2 })],
        nextId := 1, clock := 2 } (by decide)⟩

/-- C8: the service returns the order exactly as `Order::new` constructed
it, not a value re-read from storage: two repositories whose `create`
returns arbitrary different orders produce the same service answer. -/
theorem create_order_returns_constructed
    (rc₁ rc₂ : Order → Except RepoError Order) (id now : Nat) (n e : String)
    (its : List OrderItem) (o o₁ o₂ : Order)
    (hnew : Order.new id now n e its = .ok o)
    (h1 : rc₁ o = .ok o₁) (h2 : rc₂ o = .ok o₂) :
    create_order_with rc₁ id now n e its = .ok o
    ∧ create_order_with rc₂ id now n e its = .ok o := by
  constructor <;> simp [create_order_with, hnew, h1, h2]

/-- Witness for C8: an echoing repository and one answering a junk order
yield the same created order. -/
theorem create_order_returns_constructed_witness :
    create_order_with (fun o => .ok o) 0 1 "Alice" "a@b.com" sampleItems
      = .ok sampleOrder
    ∧ create_order_with (fun _ => .ok completedOrder) 0 1 "Alice" "a@b.com"
        sampleItems = .ok sampleOrder :=
  create_order_returns_constructed (fun o => .ok o) (fun _ => .ok completedOrder)
    0 1 "Alice" "a@b.com" sampleItems sampleOrder sampleOrder completedOrder
    (by decide) (by decide) (by decide)

/-- C9: `InMemoryRepo::create` with an identifier already in the store
succeeds and silently replaces the stored order: afterwards only the new
order is retrievable under that identifier. -/
theorem create_same_id_overwrites (s : Sys) (o1 o2 : Order)
    (h : o2.id = o1.id) :
    ∃ s1 s2, InMemoryRepo.create s o1 = (.ok o1, s1)
      ∧ InMemoryRepo.create s1 o2 = (.ok o2, s2)
      ∧ s2.store.lookup o1.id = some o2 := by
  refine ⟨_, _, rfl, rfl, ?_⟩
  simp only [InMemoryRepo.create]
  rw [← h]
  exact Store.lookup_insert_self _ _ _

/-- Witness for C9: a second order with identifier 0 replaces the sample
order. -/
theorem create_same_id_overwrites_witness :
    ∃ s1 s2, InMemoryRepo.create Sys.init sampleOrder = (.ok sampleOrder, s1)
      ∧ InMemoryRepo.create s1 { completedOrder with id := 0 }
          = (.ok { completedOrder with id := 0 }, s2)
      ∧ s2.store.lookup sampleOrder.id = some { completedOrder with id := 0 } :=
  create_same_id_overwrites Sys.init sampleOrder
    { completedOrder with id := 0 } (by decide)

/-- C10: every operation of the in-memory adapter answers `Ok`; the
`RepoError::DbError` branch is unreachable for `InMemoryRepo`. -/
theorem memory_repo_total_ok (s : Sys) (o : Order) (id : Nat)
    (st : OrderStatus) :
    (∃ v s', InMemoryRepo.create s o = (.ok v, s'))
    ∧ (∃ v s', InMemoryRepo.get s id = (.ok v, s'))
    ∧ (∃ v s', InMemoryRepo.list s = (.ok v, s'))
    ∧ (∃ v s', InMemoryRepo.update_status s id st = (.ok v, s'))
    ∧ (∃ v s', InMemoryRepo.delete s id = (.ok v, s')) := by
  refine ⟨⟨_, _, rfl⟩, ⟨_, _, rfl⟩, ⟨_, _, rfl⟩, ?_, ⟨_, _, rfl⟩⟩
  unfold InMemoryRepo.update_status
  cases hl : s.store.lookup id <;> exact ⟨_, _, rfl⟩

end GoodRustServer
